import Mathlib

/-!
Shallow embedding of the multi-wallet ledger aggregation and sync
coordination logic of `ArmoryQt.py` (class `ArmoryMainWindow`), and
theorems checking the natural-language specification against it.

Conventions of the embedding:
* wallet identifiers and transaction hashes are `Nat` (they are opaque
  ordered keys in the source);
* Python integers are `Int` where subtraction appears (`latestBlockNum -
  le.getBlockNum() + 1` can be negative), block heights are `Nat`;
* a Python `raise` / uncaught exception is `Except.error` (or `Option.none`
  for lookups that would raise `KeyError`);
* external collaborators (the chain engine `TheBDM`, the networking
  factory's zero-conf maps) are passed in as explicit values or functions.
-/

namespace Armory

/-- One ledger entry of a wallet, as produced by `wlt.getTxLedger()`.
`blockNum` is the containing block height; the value `0xffffffff` is the
unconfirmed sentinel (maximum representable height).  `blockIndex` is the
intra-block position used by the entry ordering.  `value` is the signed
amount in the smallest currency unit. -/
structure LedgerEntry where
  txHash : Nat
  blockNum : Nat
  blockIndex : Nat
  value : Int
deriving Repr, DecidableEq

/-- A loaded wallet handle as `ArmoryMainWindow` sees it: the fields of
`PyBtcWallet` that this file's logic reads.  `txLedger` is what
`wlt.getTxLedger()` returns (the confirmed ledger from the chain scan).
`zeroConfEntries` models what `createZeroConfLedger(wlt)` /
`ZeroConfTracker.entriesFor` would return for this wallet; the combined
ledger build never reads it (the call is commented out in the source), it
exists so the specification's row-count prediction can be stated. -/
structure Wallet where
  wltUniqueIDB58 : Nat
  labelName : String
  useEncryption : Bool
  watchingOnly : Bool
  walletPath : String
  balance : Int
  txLedger : List LedgerEntry
  commentsMap : List (Nat × String)
  zeroConfEntries : List LedgerEntry
deriving Repr, DecidableEq

/-- The unconfirmed-height sentinel `0xffffffff` tested by
`convertLedgerToTable`. -/
def unconfSentinel : Nat := 4294967295

/-- Modelled from the spec: the deterministic ordering key of a ledger
entry, "combining height and intra-block position (unconfirmed entries
sort as newest)".  The comparison itself lives in the C++ `LedgerEntry`
class, which is not part of this repository's files; only this key, not
any wallet or hash data, takes part in the comparison. -/
def entryKey (e : LedgerEntry) : Nat × Nat := (e.blockNum, e.blockIndex)

/-- Lexicographic `≤` on ordering keys, as a boolean. -/
def keyLE (a b : Nat × Nat) : Bool :=
  decide (a.1 < b.1) || (a.1 == b.1 && decide (a.2 ≤ b.2))

/-- The comparison `list.sort(key=lambda x:x[1], reverse=True)` sorts by:
`x` may stay before `y` exactly when the key of `y` is `≤` the key of
`x`.  Only the ledger entry (`x[1]`) takes part; the wallet ID does not. -/
def pairDescLE (x y : Nat × LedgerEntry) : Bool :=
  keyLE (entryKey y.2) (entryKey x.2)

/-- `pairDescLE` as a relation, for the sort. -/
def PairDescRel (x y : Nat × LedgerEntry) : Prop := pairDescLE x y = true

instance : DecidableRel PairDescRel := fun x y =>
  inferInstanceAs (Decidable (pairDescLE x y = true))

/-- `self.combinedLedger.sort(key=lambda x:x[1], reverse=True)`.  Python's
`list.sort` is stable and its comparison here is the total preorder
`pairDescLE`; the stable sort of a list under a total preorder is unique,
so insertion sort computes the same list. -/
def sortCombined (l : List (Nat × LedgerEntry)) : List (Nat × LedgerEntry) :=
  l.insertionSort PairDescRel

/-- `self.walletMap[wltID]` — `none` is Python's `KeyError`. -/
def lookupWallet (m : List (Nat × Wallet)) (wid : Nat) : Option Wallet :=
  (m.find? (fun p => p.1 == wid)).map (fun p => p.2)

/-- `[ [wltID, le] for le in self.walletLedgers[index] ]`. -/
def taggedLedger (wid : Nat) (w : Wallet) : List (Nat × LedgerEntry) :=
  w.txLedger.map (fun le => (wid, le))

/-- The accumulation loop of `createCombinedLedger`: for each wallet ID of
the subset, look the wallet up and append its tagged confirmed ledger.
The zero-conf pairs (`id_le_zcpairs`) are commented out in the source and
therefore absent here. -/
def collectLedgerPairs (m : List (Nat × Wallet)) :
    List Nat → Option (List (Nat × LedgerEntry))
  | [] => some []
  | wid :: rest => do
    let w ← lookupWallet m wid
    let tail ← collectLedgerPairs m rest
    some (taggedLedger wid w ++ tail)

/-- One step of the totals loop of `createCombinedLedger`:
`if (self.latestBlockNum - le.getBlockNum() + 1) < 6: unconfFund += ...
else: totFund += ...`.  The accumulator is `(totFund, unconfFund)`. -/
def totalsStep (tip : Nat) (acc : Int × Int) (p : Nat × LedgerEntry) : Int × Int :=
  if (tip : Int) - (p.2.blockNum : Int) + 1 < 6 then (acc.1, acc.2 + p.2.value)
  else (acc.1 + p.2.value, acc.2)

/-- The totals loop over the combined ledger, starting from
`totFund, unconfFund = 0,0`. -/
def computeTotals (tip : Nat) (l : List (Nat × LedgerEntry)) : Int × Int :=
  l.foldl (totalsStep tip) (0, 0)

/-- The boolean the totals loop branches on: the entry counts as
unconfirmed when `latestBlockNum - blockNum + 1 < 6`. -/
def isUnconfPair (tip : Nat) (p : Nat × LedgerEntry) : Bool :=
  decide ((tip : Int) - (p.2.blockNum : Int) + 1 < 6)

/-- One row of `convertLedgerToTable`'s 2D table.  The date and amount
cells are shown through the external formatters `unixTimeToFormatStr` and
`coin2str`; the row keeps the raw timestamp and value fed to them. -/
structure LedgerRow where
  nConf : Int
  txtime : Nat
  value : Int
  wltName : String
  comment : String
  amountShown : Int
  isMine : Bool
  wltID : Nat
deriving Repr, DecidableEq

/-- The body of `convertLedgerToTable`'s loop for one `(wltID, le)` pair.
`tip` is `self.latestBlockNum`, `topTime` is
`TheBDM.getTopBlockHeader().getTimestamp()` (the timestamp of the current
top block), `zcTime` is the networking factory's `zeroConfTxTime` map
(total here: the looked-up hashes of unconfirmed rows are tracked
zero-conf transactions). -/
def mkRow (tip : Nat) (topTime : Nat) (zcTime : Nat → Nat) (offlines : List Nat)
    (m : List (Nat × Wallet)) (p : Nat × LedgerEntry) : Option LedgerRow := do
  let wlt ← lookupWallet m p.1
  let le := p.2
  let nConf : Int :=
    if le.blockNum ≥ unconfSentinel then 0 else (tip : Int) - (le.blockNum : Int) + 1
  let txtime : Nat := if nConf > 0 then topTime else zcTime le.txHash
  some { nConf := nConf,
         txtime := txtime,
         value := le.value,
         wltName := wlt.labelName,
         comment := (((wlt.commentsMap.find? (fun q => q.1 == le.txHash)).map
            (fun q => q.2)).getD ""),
         amountShown := le.value,
         isMine := wlt.watchingOnly && !(offlines.contains p.1),
         wltID := p.1 }

/-- `convertLedgerToTable(self, ledger)`: one row per `(wltID, le)` pair,
in order.  `none` is an uncaught `KeyError` from `self.walletMap[wltID]`. -/
def convertLedgerToTable (tip : Nat) (topTime : Nat) (zcTime : Nat → Nat)
    (offlines : List Nat) (m : List (Nat × Wallet)) :
    List (Nat × LedgerEntry) → Option (List LedgerRow)
  | [] => some []
  | p :: rest => do
    let r ← mkRow tip topTime zcTime offlines m p
    let rs ← convertLedgerToTable tip topTime zcTime offlines m rest
    some (r :: rs)

/-- What the display section of `createCombinedLedger` writes when it
runs: the two label values and the ledger table. -/
structure DisplayView where
  totalFundsShown : Int
  unconfirmedShown : Int
  ledgerTable : List LedgerRow
deriving Repr, DecidableEq

/-- The `ArmoryMainWindow` state read and written by the ledger logic. -/
structure MainState where
  walletMap : List (Nat × Wallet)
  walletOfflines : List Nat
  latestBlockNum : Nat
  combinedLedger : List (Nat × LedgerEntry)
  ledgerSize : Nat
  display : Option DisplayView
deriving Repr, DecidableEq

/-- `createCombinedLedger(self, wltIDList)` with the subset given
explicitly (the `wltIDList==None` branch only resolves the subset from
the radio buttons before running this same logic).  Steps, in source
order: rebuild `combinedLedger` from scratch from the subset's confirmed
ledgers, sort it descending, record `ledgerSize`, then run the
display-update section inside `try ... except AttributeError: pass` —
`displayReady` says whether the display objects exist; when they do not,
the first display access raises `AttributeError` and the whole section is
skipped silently.  The overall `none` is an uncaught exception
(`KeyError` from a wallet lookup). -/
def createCombinedLedger (topTime : Nat) (zcTime : Nat → Nat) (displayReady : Bool)
    (st : MainState) (wltIDList : List Nat) : Option MainState := do
  let pairs ← collectLedgerPairs st.walletMap wltIDList
  let sorted := sortCombined pairs
  let st1 := { st with combinedLedger := sorted, ledgerSize := sorted.length }
  if displayReady then
    let t := computeTotals st1.latestBlockNum sorted
    let table ← convertLedgerToTable st1.latestBlockNum topTime zcTime
        st1.walletOfflines st1.walletMap sorted
    some { st1 with display := some { totalFundsShown := t.1,
                                      unconfirmedShown := t.2,
                                      ledgerTable := table } }
  else
    some st1

/-- The chain-engine readings one `Heartbeat` tick makes:
`TheBDM.isInitialized()`, the return of `TheBDM.readBlkFileUpdate()`, and
the height `TheBDM.getTopBlockHeader().getBlockHeight()` reports after
that update. -/
structure BDMView where
  initialized : Bool
  newBlks : Nat
  topHeight : Nat
deriving Repr, DecidableEq

/-- The block-poll section of `Heartbeat` (what `self.latestBlockNum` is
afterwards): when the engine is initialized and `readBlkFileUpdate()`
returns a positive count the code hits `pass  # do something eventually`
and leaves the tracked height alone; only in the zero-new-blocks branch
does it assign the engine's reported top height, whatever that is. -/
def heartbeatLatestBlockNum (bdm : BDMView) (latest : Nat) : Nat :=
  if bdm.initialized then
    if bdm.newBlks > 0 then latest else bdm.topHeight
  else latest

/-- `for func in self.extraHeartbeatFunctions: func()` — each hook may
raise; an uncaught exception aborts the remaining hooks and propagates. -/
def runHeartbeatFuncs :
    List (MainState → Except String MainState) → MainState → Except String MainState
  | [], st => .ok st
  | f :: rest, st => do
    let st1 ← f st
    runHeartbeatFuncs rest st1

/-- One `Heartbeat(self, nextBeatSec)` tick: the block poll, the balance
loop (which only rebinds `self.walletBalances` to the last-iterated
wallet's balance and cannot raise, so it has no field here), the extra
heartbeat hooks, and finally `reactor.callLater(nextBeatSec,
self.Heartbeat)`.  There is no `try` anywhere in the body: an exception
in any hook propagates and the `callLater` line is never reached, so the
returned delay exists only in the `.ok` case. -/
def Heartbeat (bdm : BDMView) (funcs : List (MainState → Except String MainState))
    (nextBeatSec : Nat) (st : MainState) : Except String (MainState × Nat) := do
  let st1 := { st with latestBlockNum := heartbeatLatestBlockNum bdm st.latestBlockNum }
  let st2 ← runHeartbeatFuncs funcs st1
  .ok (st2, nextBeatSec)

/-- The registry state `loadWalletsAndSettings` builds up while looping
over the wallet paths.  `dupWarnings` records the two paths each
duplicate-wallet warning prints (loaded first, skipped second). -/
structure LoadState where
  walletMap : List (Nat × Wallet)
  walletIndices : List (Nat × Nat)
  walletIDSet : List Nat
  walletIDList : List Nat
  walletBalances : List Int
  walletOfflines : List Nat
  dupWarnings : List (String × String)
deriving Repr, DecidableEq

/-- The empty registry the loop starts from. -/
def initLoadState : LoadState :=
  { walletMap := [], walletIndices := [], walletIDSet := [], walletIDList := [],
    walletBalances := [], walletOfflines := [], dupWarnings := [] }

/-- One iteration of the `for fpath in wltPaths` loop of
`loadWalletsAndSettings`.  `parse` is `PyBtcWallet().readWalletFile`
(`none` = the parse raised).  The `Offline_WalletIDs` setting may list
identifiers or paths (`if wltID in wltOffline or fpath in wltOffline`),
so it appears as the two lists `offlineIDs` and `offlinePaths`.  On a
parse failure the `except` block prints a could-not-be-loaded /
skipping warning and then executes `raise`, so the whole load aborts:
that is the `.error fpath` case. -/
def loadOneWallet (parse : String → Option Wallet) (wltExclude : List String)
    (offlineIDs : List Nat) (offlinePaths : List String)
    (st : LoadState) (fpath : String) : Except String LoadState :=
  match parse fpath with
  | none => .error fpath
  | some wltLoad =>
    let wltID := wltLoad.wltUniqueIDB58
    if fpath ∈ wltExclude then .ok st
    else if wltID ∈ st.walletIDSet then
      .ok { st with dupWarnings := st.dupWarnings ++
              [(((lookupWallet st.walletMap wltID).map (fun w => w.walletPath)).getD "",
                fpath)] }
    else
      .ok { st with
        walletMap := st.walletMap ++ [(wltID, wltLoad)],
        walletIndices := st.walletIndices ++ [(wltID, st.walletMap.length)],
        walletIDSet := st.walletIDSet ++ [wltID],
        walletIDList := st.walletIDList ++ [wltID],
        walletBalances := st.walletBalances ++ [(-1 : Int)],
        walletOfflines :=
          if wltID ∈ offlineIDs || fpath ∈ offlinePaths then
            st.walletOfflines ++ [wltID]
          else st.walletOfflines }

/-- The whole wallet-loading loop of `loadWalletsAndSettings`. -/
def loadWallets (parse : String → Option Wallet) (wltExclude : List String)
    (offlineIDs : List Nat) (offlinePaths : List String) :
    LoadState → List String → Except String LoadState
  | st, [] => .ok st
  | st, fpath :: rest => do
    let st1 ← loadOneWallet parse wltExclude offlineIDs offlinePaths st fpath
    loadWallets parse wltExclude offlineIDs offlinePaths st1 rest

/-- Modelled from the spec: the combined ledger's predicted row count,
"one row for each confirmed ledger entry and one row for each zero-conf
entry of every wallet in the subset" — the sum of confirmed entries plus
zero-conf entries over the subset.  The zero-conf entries per wallet come
from `createZeroConfLedger` / `ZeroConfTracker.entriesFor`, whose body is
C++ code outside this repository's files; the `zeroConfEntries` field of
`Wallet` stands for its result. -/
def specCombinedRowCount (m : List (Nat × Wallet)) : List Nat → Option Nat
  | [] => some 0
  | wid :: rest => do
    let w ← lookupWallet m wid
    let n ← specCombinedRowCount m rest
    some (w.txLedger.length + w.zeroConfEntries.length + n)

/-- Modelled from the spec: the claimed row order — "ordering key,
descending; ties broken by wallet ID ascending then transaction hash
ascending".  `specPairLE a b` says `a` may come right before `b` under
that order. -/
def specPairLE (x y : Nat × LedgerEntry) : Bool :=
  if entryKey x.2 == entryKey y.2 then
    if x.1 == y.1 then decide (x.2.txHash ≤ y.2.txHash)
    else decide (x.1 ≤ y.1)
  else keyLE (entryKey y.2) (entryKey x.2)

/-- Adjacent-pairs check that a list is ordered by `specPairLE`. -/
def specOrderedB : List (Nat × LedgerEntry) → Bool
  | [] => true
  | [_] => true
  | a :: b :: rest => specPairLE a b && specOrderedB (b :: rest)

/-- Modelled from the spec: the displayed timestamp a row should carry —
"the timestamp of the block containing the entry when the entry is
confirmed (confirmation count > 0), and the zero-conf arrival wall-clock
time of the transaction otherwise".  `blockTimeOf` gives the timestamp of
the block at each height. -/
def specRowTimestamp (blockTimeOf : Nat → Nat) (zcTime : Nat → Nat) (tip : Nat)
    (p : Nat × LedgerEntry) : Nat :=
  let nConf : Int :=
    if p.2.blockNum ≥ unconfSentinel then 0 else (tip : Int) - (p.2.blockNum : Int) + 1
  if nConf > 0 then blockTimeOf p.2.blockNum else zcTime p.2.txHash

/-- The wallet that `loadWalletsAndSettings` registered for `wid` after
working through `paths` from an empty registry: the first path whose
wallet parses, is not excluded, and has identifier `wid`.  (`none` also
when some earlier path failed to parse, since the load then aborts.) -/
def firstLoadOf (parse : String → Option Wallet) (excl : List String) (wid : Nat) :
    List String → Option Wallet
  | [] => none
  | p :: rest =>
    match parse p with
    | none => none
    | some w =>
      if p ∈ excl then firstLoadOf parse excl wid rest
      else if w.wltUniqueIDB58 = wid then some w
      else firstLoadOf parse excl wid rest

/-- The registry invariant the load loop maintains: `walletIDSet` mirrors
the map's keys and the keys are distinct. -/
def RegWF (st : LoadState) : Prop :=
  st.walletIDSet = st.walletMap.map Prod.fst ∧ (st.walletMap.map Prod.fst).Nodup

/-! ### Sample data used by the concrete witnesses and counterexamples -/

/-- A wallet handle with the given identifier, path, confirmed ledger and
zero-conf entries, everything else plain. -/
def mkWallet (wid : Nat) (path : String) (led : List LedgerEntry)
    (zc : List LedgerEntry) : Wallet :=
  { wltUniqueIDB58 := wid, labelName := path, useEncryption := false,
    watchingOnly := false, walletPath := path, balance := 0,
    txLedger := led, commentsMap := [], zeroConfEntries := zc }

/-- A confirmed entry at height 100. -/
def entryAt100 : LedgerEntry :=
  { txHash := 7, blockNum := 100, blockIndex := 0, value := 500000000 }

/-- A zero-conf entry (sentinel height). -/
def entryZC : LedgerEntry :=
  { txHash := 8, blockNum := unconfSentinel, blockIndex := 0, value := 100000000 }

/-- An entry used twice, to make two wallets tie on the ordering key. -/
def entryTie : LedgerEntry :=
  { txHash := 11, blockNum := 100, blockIndex := 2, value := 5 }

/-- Block timestamps of the sample chain: block 100 was mined at time
1000, every other height (in particular the tip 105) at time 2000. -/
def blockTimeAt : Nat → Nat := fun h => if h == 100 then 1000 else 2000

/-- An `ArmoryMainWindow` state with the given wallets, chain tip 105 and
no display objects yet. -/
def mkState (m : List (Nat × Wallet)) : MainState :=
  { walletMap := m, walletOfflines := [], latestBlockNum := 105,
    combinedLedger := [], ledgerSize := 0, display := none }

/-- An empty main-window state. -/
def emptyMainState : MainState := mkState []

/-- A chain-engine view with nothing to report. -/
def quietBDM : BDMView := { initialized := false, newBlks := 0, topHeight := 0 }

/-- Wallet parsed from `pathA`. -/
def wltA : Wallet := mkWallet 1 "pathA" [] []

/-- Wallet parsed from `pathC`. -/
def wltC : Wallet := mkWallet 3 "pathC" [] []

/-- `PyBtcWallet().readWalletFile` for the C3 scenario: the middle path
cannot be parsed. -/
def parseOneBad : String → Option Wallet
  | "pathA" => some wltA
  | "pathC" => some wltC
  | _ => none

/-- Two wallet files that compute the same identifier 4. -/
def parseDup : String → Option Wallet
  | "dup1" => some (mkWallet 4 "dup1" [] [])
  | "dup2" => some (mkWallet 4 "dup2" [] [])
  | _ => none

/-- The registry state after loading `["dup1", "dup2"]`: one entry (the
first-loaded wallet) and one duplicate warning naming both paths. -/
def dupLoadedState : LoadState :=
  { walletMap := [(4, mkWallet 4 "dup1" [] [])], walletIndices := [(4, 0)],
    walletIDSet := [4], walletIDList := [4], walletBalances := [(-1 : Int)],
    walletOfflines := [], dupWarnings := [("dup1", "dup2")] }

/-! ### The sort comparison is a total preorder -/

theorem keyLE_total (a b : Nat × Nat) : keyLE a b = true ∨ keyLE b a = true := by
  simp only [keyLE, Bool.or_eq_true, Bool.and_eq_true, decide_eq_true_eq, beq_iff_eq]
  omega

theorem keyLE_trans (a b c : Nat × Nat) (h1 : keyLE a b = true) (h2 : keyLE b c = true) :
    keyLE a c = true := by
  simp only [keyLE, Bool.or_eq_true, Bool.and_eq_true, decide_eq_true_eq, beq_iff_eq] at h1 h2 ⊢
  omega

instance : IsTotal (Nat × LedgerEntry) PairDescRel :=
  ⟨fun x y => keyLE_total (entryKey y.2) (entryKey x.2)⟩

instance : IsTrans (Nat × LedgerEntry) PairDescRel :=
  ⟨fun _ _ _ h1 h2 => keyLE_trans _ _ _ h2 h1⟩

/-! ### The totals loop -/

theorem totalsStep_eq (tip : Nat) (acc : Int × Int) (p : Nat × LedgerEntry) :
    totalsStep tip acc p =
      if isUnconfPair tip p then (acc.1, acc.2 + p.2.value)
      else (acc.1 + p.2.value, acc.2) := by
  by_cases h : (tip : Int) - (p.2.blockNum : Int) + 1 < 6 <;>
    simp [totalsStep, isUnconfPair, h]

theorem computeTotals_go (tip : Nat) :
    ∀ (l : List (Nat × LedgerEntry)) (acc : Int × Int),
      l.foldl (totalsStep tip) acc =
        (acc.1 + ((l.filter (fun p => !(isUnconfPair tip p))).map (fun p => p.2.value)).sum,
         acc.2 + ((l.filter (fun p => isUnconfPair tip p)).map (fun p => p.2.value)).sum)
  | [], acc => by simp
  | p :: rest, acc => by
    rw [List.foldl_cons, totalsStep_eq, computeTotals_go tip rest]
    by_cases h : isUnconfPair tip p = true <;>
      simp [List.filter_cons, h, add_assoc]

theorem sum_split_filter (q : (Nat × LedgerEntry) → Bool) :
    ∀ l : List (Nat × LedgerEntry),
      ((l.filter (fun p => !(q p))).map (fun p => p.2.value)).sum +
        ((l.filter q).map (fun p => p.2.value)).sum =
      (l.map (fun p => p.2.value)).sum
  | [] => by simp
  | p :: rest => by
    by_cases h : q p = true <;>
      · simp [List.filter_cons, h]
        rw [← sum_split_filter q rest]
        ring

/-! ### C2 — heartbeat block poll and the tracked tip height -/

/-- C2: the block-poll code of `Heartbeat` evaluated at the failing
inputs.  With the engine initialized, a poll that reports one new block
and top height 101 leaves the tracked height at its old value 100
(the positive branch is `pass  # do something eventually`), so the
tracked height does not equal the engine's top height; and a poll
reporting zero new blocks with a lower top height 90 overwrites the
tracked height 100 with 90, so a lower reported height is not a no-op. -/
theorem claim2_poll_failing :
    heartbeatLatestBlockNum { initialized := true, newBlks := 1, topHeight := 101 } 100 = 100 ∧
    heartbeatLatestBlockNum { initialized := true, newBlks := 0, topHeight := 90 } 100 = 90 :=
  ⟨rfl, rfl⟩

/-! ### C3 — a wallet that fails to parse aborts the whole load -/

/-- C3: the loader evaluated at the failing input.  The `except` block
prints a could-not-be-loaded warning and then executes `raise`, so the
parse failure of the middle path propagates and `pathC` — a perfectly
parseable wallet later in the list — is never loaded: the whole load
ends in the raised error instead of a registry holding `pathA` and
`pathC`. -/
theorem claim3_load_aborts :
    loadWallets parseOneBad [] [] [] initLoadState ["pathA", "pathBad", "pathC"] =
      .error "pathBad" := by
  rfl

/-! ### C4 — a raising heartbeat hook kills the reschedule -/

/-- C4 counterexample: one registered extra heartbeat hook raises;
the tick evaluates to the propagated exception, so execution never
reaches the `reactor.callLater` line and no next beat is scheduled —
the claim's unconditional reschedule fails at this input. -/
theorem claim4_counterexample :
    Heartbeat quietBDM [fun _ => Except.error "hook failed"] 3 emptyMainState =
      Except.error "hook failed" := by
  rfl

/-- C4 amended: a heartbeat tick schedules the next beat (returns `.ok`,
carrying the delay `nextBeatSec`) exactly when every registered extra
heartbeat hook completes without raising on the state the block poll
left; a raising hook propagates its exception and no reschedule happens.
(The poll and the balance loop of this code cannot raise.) -/
theorem claim4_reschedule_iff (bdm : BDMView)
    (funcs : List (MainState → Except String MainState)) (n : Nat) (st : MainState)
    (out : MainState × Nat) :
    Heartbeat bdm funcs n st = .ok out ↔
      (runHeartbeatFuncs funcs
          { st with latestBlockNum := heartbeatLatestBlockNum bdm st.latestBlockNum } =
        .ok out.1 ∧ out.2 = n) := by
  unfold Heartbeat
  cases h : runHeartbeatFuncs funcs
      { st with latestBlockNum := heartbeatLatestBlockNum bdm st.latestBlockNum } with
  | error e => simp [h, Bind.bind, Except.bind]
  | ok s =>
    simp only [h, Bind.bind, Except.bind, Except.ok.injEq]
    constructor
    · intro he
      exact ⟨by rw [← he], by rw [← he]⟩
    · intro ⟨h1, h2⟩
      cases out
      simp_all

/-! ### C5 — the confirmed/unconfirmed totals partition -/

/-- C5: in every combined-ledger build, an entry's value is accumulated
into the unconfirmed total exactly when `latestBlockNum − blockNum + 1 <
6` and into the confirmed total otherwise, and the two totals add up to
the exact signed sum of all included entries' values. -/
theorem claim5_totals_partition (tip : Nat) (l : List (Nat × LedgerEntry)) :
    computeTotals tip l =
      (((l.filter (fun p => !(isUnconfPair tip p))).map (fun p => p.2.value)).sum,
       ((l.filter (fun p => isUnconfPair tip p)).map (fun p => p.2.value)).sum) ∧
    (computeTotals tip l).1 + (computeTotals tip l).2 = (l.map (fun p => p.2.value)).sum := by
  have h := computeTotals_go tip l (0, 0)
  have h1 : computeTotals tip l =
      (((l.filter (fun p => !(isUnconfPair tip p))).map (fun p => p.2.value)).sum,
       ((l.filter (fun p => isUnconfPair tip p)).map (fun p => p.2.value)).sum) := by
    simpa [computeTotals] using h
  refine ⟨h1, ?_⟩
  rw [h1]
  exact sum_split_filter (fun p => isUnconfPair tip p) l

/-! ### The pair collection and the table conversion -/

theorem collectLedgerPairs_length (m : List (Nat × Wallet)) :
    ∀ (ids : List Nat) (pairs : List (Nat × LedgerEntry)),
      collectLedgerPairs m ids = some pairs →
      pairs.length = (ids.map (fun wid =>
        ((lookupWallet m wid).map (fun w => w.txLedger.length)).getD 0)).sum
  | [], pairs, h => by
    simp only [collectLedgerPairs, Option.some.injEq] at h
    simp [← h]
  | wid :: rest, pairs, h => by
    simp only [collectLedgerPairs, Option.bind_eq_bind, Option.bind_eq_some] at h
    obtain ⟨w, hw, tail, htail, hp⟩ := h
    have ih := collectLedgerPairs_length m rest tail htail
    rw [Option.some.injEq] at hp
    subst hp
    simp [taggedLedger, ih, hw]

theorem collectLedgerPairs_lookup (m : List (Nat × Wallet)) :
    ∀ (ids : List Nat) (pairs : List (Nat × LedgerEntry)),
      collectLedgerPairs m ids = some pairs →
      ∀ p ∈ pairs, (lookupWallet m p.1).isSome = true
  | [], pairs, h => by
    simp only [collectLedgerPairs, Option.some.injEq] at h
    simp [← h]
  | wid :: rest, pairs, h => by
    simp only [collectLedgerPairs, Option.bind_eq_bind, Option.bind_eq_some] at h
    obtain ⟨w, hw, tail, htail, hp⟩ := h
    intro p hp2
    rw [Option.some.injEq] at hp
    rw [← hp] at hp2
    rcases List.mem_append.mp hp2 with hin | hin
    · obtain ⟨le, _, hle⟩ := List.mem_map.mp hin
      rw [← hle]
      simp [hw]
    · exact collectLedgerPairs_lookup m rest tail htail p hin

theorem mkRow_eq_of_lookup (tip : Nat) (topTime : Nat) (zcTime : Nat → Nat)
    (offl : List Nat) (m : List (Nat × Wallet)) (p : Nat × LedgerEntry) (w : Wallet)
    (hw : lookupWallet m p.1 = some w) :
    mkRow tip topTime zcTime offl m p = some
      { nConf := (if p.2.blockNum ≥ unconfSentinel then 0
                  else (tip : Int) - (p.2.blockNum : Int) + 1),
        txtime := (if (if p.2.blockNum ≥ unconfSentinel then (0 : Int)
                       else (tip : Int) - (p.2.blockNum : Int) + 1) > 0
                   then topTime else zcTime p.2.txHash),
        value := p.2.value,
        wltName := w.labelName,
        comment := (((w.commentsMap.find? (fun q => q.1 == p.2.txHash)).map
            (fun q => q.2)).getD ""),
        amountShown := p.2.value,
        isMine := w.watchingOnly && !(offl.contains p.1),
        wltID := p.1 } := by
  simp [mkRow, hw]

theorem mkRow_fields (tip : Nat) (topTime : Nat) (zcTime : Nat → Nat)
    (offl : List Nat) (m : List (Nat × Wallet)) (p : Nat × LedgerEntry) (r : LedgerRow)
    (h : mkRow tip topTime zcTime offl m p = some r) :
    r.nConf = (if p.2.blockNum ≥ unconfSentinel then 0
               else (tip : Int) - (p.2.blockNum : Int) + 1) ∧
    r.txtime = (if r.nConf > 0 then topTime else zcTime p.2.txHash) := by
  cases hw : lookupWallet m p.1 with
  | none => simp [mkRow, hw] at h
  | some w =>
    rw [mkRow_eq_of_lookup tip topTime zcTime offl m p w hw, Option.some.injEq] at h
    rw [← h]
    exact ⟨rfl, rfl⟩

theorem convertLedgerToTable_forall₂ (tip : Nat) (topTime : Nat) (zcTime : Nat → Nat)
    (offl : List Nat) (m : List (Nat × Wallet)) :
    ∀ (l : List (Nat × LedgerEntry)) (rows : List LedgerRow),
      convertLedgerToTable tip topTime zcTime offl m l = some rows →
      List.Forall₂ (fun p r => mkRow tip topTime zcTime offl m p = some r) l rows
  | [], rows, h => by
    simp only [convertLedgerToTable, Option.some.injEq] at h
    rw [← h]
    exact List.Forall₂.nil
  | p :: rest, rows, h => by
    simp only [convertLedgerToTable, Option.bind_eq_bind, Option.bind_eq_some] at h
    obtain ⟨r, hr, rs, hrs, hcons⟩ := h
    rw [Option.some.injEq] at hcons
    rw [← hcons]
    exact List.Forall₂.cons hr (convertLedgerToTable_forall₂ tip topTime zcTime offl m rest rs hrs)

theorem convertLedgerToTable_isSome (tip : Nat) (topTime : Nat) (zcTime : Nat → Nat)
    (offl : List Nat) (m : List (Nat × Wallet)) :
    ∀ l : List (Nat × LedgerEntry),
      (∀ p ∈ l, (lookupWallet m p.1).isSome = true) →
      (convertLedgerToTable tip topTime zcTime offl m l).isSome = true
  | [], _ => by simp [convertLedgerToTable]
  | p :: rest, h => by
    obtain ⟨w, hw⟩ := Option.isSome_iff_exists.mp (h p (by simp))
    have hr := convertLedgerToTable_isSome tip topTime zcTime offl m rest
      (fun q hq => h q (List.mem_cons_of_mem p hq))
    obtain ⟨rs, hrs⟩ := Option.isSome_iff_exists.mp hr
    simp [convertLedgerToTable, mkRow_eq_of_lookup tip topTime zcTime offl m p w hw, hrs]

/-! ### The combined-ledger build -/

theorem createCombinedLedger_ok (topTime : Nat) (zcTime : Nat → Nat) (b : Bool)
    (st : MainState) (ids : List Nat) (pairs : List (Nat × LedgerEntry))
    (h : collectLedgerPairs st.walletMap ids = some pairs) :
    ∃ st', createCombinedLedger topTime zcTime b st ids = some st' ∧
      st'.combinedLedger = sortCombined pairs ∧
      st'.ledgerSize = (sortCombined pairs).length ∧
      st'.walletMap = st.walletMap ∧
      st'.latestBlockNum = st.latestBlockNum := by
  have hlk : ∀ p ∈ sortCombined pairs, (lookupWallet st.walletMap p.1).isSome = true := by
    intro p hp
    exact collectLedgerPairs_lookup st.walletMap ids pairs h p
      ((List.mem_insertionSort PairDescRel).mp hp)
  cases b with
  | false =>
    refine ⟨{ st with combinedLedger := sortCombined pairs, ledgerSize := (sortCombined pairs).length }, ?_, rfl, rfl, rfl, rfl⟩
    simp [createCombinedLedger, h]
  | true =>
    obtain ⟨table, htable⟩ := Option.isSome_iff_exists.mp
      (convertLedgerToTable_isSome st.latestBlockNum topTime zcTime st.walletOfflines
        st.walletMap (sortCombined pairs) hlk)
    refine ⟨{ st with combinedLedger := sortCombined pairs, ledgerSize := (sortCombined pairs).length, display := some { totalFundsShown := (computeTotals st.latestBlockNum (sortCombined pairs)).1, unconfirmedShown := (computeTotals st.latestBlockNum (sortCombined pairs)).2, ledgerTable := table } }, ?_, rfl, rfl, rfl, rfl⟩
    simp [createCombinedLedger, h, htable]

theorem createCombinedLedger_inv (topTime : Nat) (zcTime : Nat → Nat) (b : Bool)
    (st : MainState) (ids : List Nat) (st' : MainState)
    (h : createCombinedLedger topTime zcTime b st ids = some st') :
    ∃ pairs, collectLedgerPairs st.walletMap ids = some pairs ∧
      st'.combinedLedger = sortCombined pairs ∧
      st'.ledgerSize = (sortCombined pairs).length := by
  simp only [createCombinedLedger, Option.bind_eq_bind, Option.bind_eq_some] at h
  obtain ⟨pairs, hpairs, hrest⟩ := h
  refine ⟨pairs, hpairs, ?_⟩
  cases b with
  | false =>
    simp only [Bool.false_eq_true, if_false] at hrest
    rw [Option.some.injEq] at hrest
    rw [← hrest]
    exact ⟨rfl, rfl⟩
  | true =>
    simp only [if_true] at hrest
    cases hconv : convertLedgerToTable st.latestBlockNum topTime zcTime
        st.walletOfflines st.walletMap (sortCombined pairs) with
    | none => simp [hconv] at hrest
    | some table =>
      simp only [hconv, Option.bind_eq_bind, Option.some_bind, Option.some.injEq] at hrest
      rw [← hrest]
      exact ⟨rfl, rfl⟩

/-! ### C1 — combined-ledger row count -/

/-- C1 counterexample: a wallet whose confirmed ledger is empty but which
has one zero-conf entry.  The claim predicts one combined-ledger row
(0 confirmed + 1 zero-conf); the build produces zero rows, because the
zero-conf extension of the combined ledger (`id_le_zcpairs`) is commented
out in `createCombinedLedger`. -/
theorem claim1_counterexample :
    (createCombinedLedger 0 (fun _ => 0) false (mkState [(9, mkWallet 9 "pathZC" [] [entryZC])]) [9]).map (fun s => s.ledgerSize) = some 0 ∧
    specCombinedRowCount [(9, mkWallet 9 "pathZC" [] [entryZC])] [9] = some 1 :=
  ⟨rfl, rfl⟩

/-- C1 amended: for every wallet subset passed to the combined-ledger
build (every subset member being a registered wallet, so the build
returns normally), the combined ledger contains exactly one row per
confirmed ledger entry of each wallet of the subset: its row count — the
recorded `ledgerSize` — equals the sum of confirmed-entry counts over
exactly those wallets.  Zero-conf entries contribute no rows, since their
inclusion is commented out in the source. -/
theorem claim1_rowcount (topTime : Nat) (zcTime : Nat → Nat) (b : Bool)
    (st : MainState) (ids : List Nat) (st' : MainState)
    (h : createCombinedLedger topTime zcTime b st ids = some st') :
    st'.ledgerSize =
      (ids.map (fun wid =>
        ((lookupWallet st.walletMap wid).map (fun w => w.txLedger.length)).getD 0)).sum ∧
    st'.ledgerSize = st'.combinedLedger.length := by
  obtain ⟨pairs, hpairs, hledger, hsize⟩ := createCombinedLedger_inv topTime zcTime b st ids st' h
  constructor
  · rw [hsize, sortCombined, List.length_insertionSort]
    exact collectLedgerPairs_length st.walletMap ids pairs hpairs
  · rw [hsize, hledger]

/-- C1 witness: the amended row-count theorem applied to a concrete
two-entry wallet. -/
theorem claim1_rowcount_witness :
    ({ mkState [(1, mkWallet 1 "pathOne" [entryAt100, entryZC] [])] with combinedLedger := sortCombined [(1, entryAt100), (1, entryZC)], ledgerSize := (sortCombined [(1, entryAt100), (1, entryZC)]).length } : MainState).ledgerSize =
      ([1].map (fun wid =>
        ((lookupWallet (mkState [(1, mkWallet 1 "pathOne" [entryAt100, entryZC] [])]).walletMap wid).map
          (fun w => w.txLedger.length)).getD 0)).sum ∧
    ({ mkState [(1, mkWallet 1 "pathOne" [entryAt100, entryZC] [])] with combinedLedger := sortCombined [(1, entryAt100), (1, entryZC)], ledgerSize := (sortCombined [(1, entryAt100), (1, entryZC)]).length } : MainState).ledgerSize =
      ({ mkState [(1, mkWallet 1 "pathOne" [entryAt100, entryZC] [])] with combinedLedger := sortCombined [(1, entryAt100), (1, entryZC)], ledgerSize := (sortCombined [(1, entryAt100), (1, entryZC)]).length } : MainState).combinedLedger.length :=
  claim1_rowcount 0 (fun _ => 0) false
    (mkState [(1, mkWallet 1 "pathOne" [entryAt100, entryZC] [])]) [1] _ rfl

/-! ### C10 — full replacement, and display failures stay contained -/

/-- C10: every build fully replaces the stored combined ledger with the
freshly computed sorted pair list and then records `ledgerSize` as its
exact length; and whether or not the display objects exist (their absence
is the `AttributeError` the build catches and ignores), the build returns
normally with the same combined ledger and the same recorded size. -/
theorem claim10_replace_display_contained (topTime : Nat) (zcTime : Nat → Nat)
    (st : MainState) (ids : List Nat) (pairs : List (Nat × LedgerEntry))
    (h : collectLedgerPairs st.walletMap ids = some pairs) :
    ∃ stT stF,
      createCombinedLedger topTime zcTime true st ids = some stT ∧
      createCombinedLedger topTime zcTime false st ids = some stF ∧
      stT.combinedLedger = sortCombined pairs ∧
      stF.combinedLedger = sortCombined pairs ∧
      stT.ledgerSize = stT.combinedLedger.length ∧
      stF.ledgerSize = stF.combinedLedger.length := by
  obtain ⟨stT, hT, hTl, hTs, _⟩ := createCombinedLedger_ok topTime zcTime true st ids pairs h
  obtain ⟨stF, hF, hFl, hFs, _⟩ := createCombinedLedger_ok topTime zcTime false st ids pairs h
  exact ⟨stT, stF, hT, hF, hTl, hFl, by rw [hTs, hTl], by rw [hFs, hFl]⟩

/-- C10 witness: the containment theorem applied to a concrete one-wallet
registry. -/
theorem claim10_replace_display_contained_witness :
    ∃ stT stF,
      createCombinedLedger 0 (fun _ => 0) true (mkState [(1, mkWallet 1 "pathOne" [entryAt100] [])]) [1] = some stT ∧
      createCombinedLedger 0 (fun _ => 0) false (mkState [(1, mkWallet 1 "pathOne" [entryAt100] [])]) [1] = some stF ∧
      stT.combinedLedger = sortCombined [(1, entryAt100)] ∧
      stF.combinedLedger = sortCombined [(1, entryAt100)] ∧
      stT.ledgerSize = stT.combinedLedger.length ∧
      stF.ledgerSize = stF.combinedLedger.length :=
  claim10_replace_display_contained 0 (fun _ => 0)
    (mkState [(1, mkWallet 1 "pathOne" [entryAt100] [])]) [1] [(1, entryAt100)] rfl

/-! ### The wallet-loading loop: first-loaded wins -/

theorem lookupWallet_isSome_iff (m : List (Nat × Wallet)) (wid : Nat) :
    (lookupWallet m wid).isSome = true ↔ wid ∈ m.map Prod.fst := by
  unfold lookupWallet
  cases hf : List.find? (fun p => p.1 == wid) m with
  | none =>
    simp only [Option.map_none', Option.isSome_none, Bool.false_eq_true, false_iff]
    intro hmem
    obtain ⟨q, hq, he⟩ := List.mem_map.mp hmem
    have hex : (List.find? (fun p => p.1 == wid) m).isSome = true :=
      List.find?_isSome.mpr ⟨q, hq, by simp [he]⟩
    rw [hf] at hex
    simp at hex
  | some q =>
    simp only [Option.map_some', Option.isSome_some, eq_self_iff_true, true_iff]
    have hpq := List.find?_some hf
    have hqm := List.mem_of_find?_eq_some hf
    exact List.mem_map.mpr ⟨q, hqm, by simpa using hpq⟩

theorem lookupWallet_append (m : List (Nat × Wallet)) (i : Nat) (w : Wallet) (wid : Nat) :
    lookupWallet (m ++ [(i, w)]) wid =
      (lookupWallet m wid).or (if i = wid then some w else none) := by
  induction m with
  | nil =>
    by_cases hiw : i = wid <;>
      simp [lookupWallet, hiw]
  | cons q rest ih =>
    by_cases hq : q.1 = wid
    · simp [lookupWallet, List.find?_cons_of_pos, hq]
    · simpa [lookupWallet, List.find?_cons_of_neg, hq] using ih

theorem loadWallets_characterize (parse : String → Option Wallet) (excl : List String)
    (oI : List Nat) (oP : List String) :
    ∀ (paths : List String) (st st' : LoadState), RegWF st →
      loadWallets parse excl oI oP st paths = .ok st' →
      RegWF st' ∧
      (∀ wid, lookupWallet st'.walletMap wid =
        (lookupWallet st.walletMap wid).or (firstLoadOf parse excl wid paths)) ∧
      (∀ d ∈ st.dupWarnings, d ∈ st'.dupWarnings) ∧
      (∀ pre p post w w1, paths = pre ++ p :: post → parse p = some w → p ∉ excl →
        (lookupWallet st.walletMap w.wltUniqueIDB58).or
            (firstLoadOf parse excl w.wltUniqueIDB58 pre) = some w1 →
        (w1.walletPath, p) ∈ st'.dupWarnings)
  | [], st, st', hwf, h => by
    simp only [loadWallets] at h
    rw [Except.ok.injEq] at h
    subst h
    refine ⟨hwf, fun wid => by simp [firstLoadOf, Option.or_none], fun d hd => hd, ?_⟩
    intro pre p post w w1 hdec
    cases pre <;> simp at hdec
  | p :: rest, st, st', hwf, h => by
    simp only [loadWallets] at h
    cases hp : parse p with
    | none =>
      simp only [loadOneWallet, hp, Bind.bind, Except.bind] at h
      exact Except.noConfusion h
    | some w =>
      simp only [loadOneWallet, hp] at h
      by_cases hexcl : p ∈ excl
      · rw [if_pos hexcl] at h
        simp only [Bind.bind, Except.bind] at h
        obtain ⟨ih1, ih2, ih3, ih4⟩ := loadWallets_characterize parse excl oI oP rest st st' hwf h
        refine ⟨ih1, ?_, ih3, ?_⟩
        · intro wid
          rw [ih2 wid]
          simp [firstLoadOf, hp, hexcl]
        · intro pre p' post w' w1 hdec hp' hex' hor
          cases pre with
          | nil =>
            rw [List.nil_append, List.cons.injEq] at hdec
            exact absurd (hdec.1 ▸ hexcl) hex'
          | cons q pre' =>
            rw [List.cons_append, List.cons.injEq] at hdec
            obtain ⟨hq, hrest⟩ := hdec
            subst hq
            refine ih4 pre' p' post w' w1 hrest hp' hex' ?_
            rw [← hor]
            congr 1
            simp [firstLoadOf, hp, hexcl]
      · rw [if_neg hexcl] at h
        by_cases hmem : w.wltUniqueIDB58 ∈ st.walletIDSet
        · rw [if_pos hmem] at h
          simp only [Bind.bind, Except.bind] at h
          have hkeys : w.wltUniqueIDB58 ∈ st.walletMap.map Prod.fst := hwf.1 ▸ hmem
          obtain ⟨w1, hw1⟩ := Option.isSome_iff_exists.mp
            ((lookupWallet_isSome_iff st.walletMap w.wltUniqueIDB58).mpr hkeys)
          obtain ⟨ih1, ih2, ih3, ih4⟩ :=
            loadWallets_characterize parse excl oI oP rest _ st' (by exact ⟨hwf.1, hwf.2⟩) h
          have hwarnpair :
              (((lookupWallet st.walletMap w.wltUniqueIDB58).map (fun v => v.walletPath)).getD "", p) = (w1.walletPath, p) := by
            rw [hw1]
            rfl
          refine ⟨ih1, ?_, ?_, ?_⟩
          · intro wid
            rw [ih2 wid]
            by_cases hwid : w.wltUniqueIDB58 = wid
            · rw [← hwid]
              rw [hw1]
              simp [firstLoadOf, hp, hexcl, Option.or_some]
            · congr 1
              simp [firstLoadOf, hp, hexcl, hwid]
          · intro d hd
            exact ih3 d (List.mem_append_left _ hd)
          · intro pre p' post w' w1' hdec hp' hex' hor
            cases pre with
            | nil =>
              rw [List.nil_append, List.cons.injEq] at hdec
              obtain ⟨hq, _⟩ := hdec
              subst hq
              rw [hp, Option.some.injEq] at hp'
              subst hp'
              rw [firstLoadOf, hw1, Option.or_some, Option.some.injEq] at hor
              subst hor
              refine ih3 _ ?_
              rw [hwarnpair]
              exact List.mem_append_right _ (by simp)
            | cons q pre' =>
              rw [List.cons_append, List.cons.injEq] at hdec
              obtain ⟨hq, hrest⟩ := hdec
              subst hq
              refine ih4 pre' p' post w' w1' hrest hp' hex' ?_
              by_cases hwid : w.wltUniqueIDB58 = w'.wltUniqueIDB58
              · rw [← hwid] at hor ⊢
                rw [hw1] at hor ⊢
                rw [Option.or_some] at hor ⊢
                exact hor
              · rw [← hor]
                congr 1
                simp only [firstLoadOf, hp]
                rw [if_neg hexcl, if_neg hwid]
        · rw [if_neg hmem] at h
          simp only [Bind.bind, Except.bind] at h
          have hkeys : w.wltUniqueIDB58 ∉ st.walletMap.map Prod.fst := hwf.1 ▸ hmem
          obtain ⟨ih1, ih2, ih3, ih4⟩ :=
            loadWallets_characterize parse excl oI oP rest _ st'
              (by
                refine ⟨?_, ?_⟩
                · simp only [List.map_append, List.map_cons, List.map_nil]
                  rw [hwf.1]
                · rw [List.map_append, List.nodup_append]
                  refine ⟨hwf.2, by simp, ?_⟩
                  intro a ha
                  simp only [List.map_cons, List.map_nil, List.mem_singleton]
                  intro heq
                  exact hkeys (heq ▸ ha)) h
          refine ⟨ih1, ?_, ih3, ?_⟩
          · intro wid
            rw [ih2 wid]
            simp only [lookupWallet_append]
            by_cases hwid : w.wltUniqueIDB58 = wid
            · cases hlk : lookupWallet st.walletMap wid with
              | some v =>
                simp [Option.or_some]
              | none =>
                simp only [hlk, Option.none_or]
                rw [if_pos hwid]
                simp only [firstLoadOf, hp]
                rw [if_neg hexcl, if_pos hwid, Option.or_some]
            · cases hlk : lookupWallet st.walletMap wid with
              | some v =>
                simp [Option.or_some]
              | none =>
                simp only [hlk, Option.none_or]
                rw [if_neg hwid]
                simp only [firstLoadOf, hp]
                rw [if_neg hexcl, if_neg hwid, Option.none_or]
          · intro pre p' post w' w1' hdec hp' hex' hor
            cases pre with
            | nil =>
              rw [List.nil_append, List.cons.injEq] at hdec
              obtain ⟨hq, _⟩ := hdec
              subst hq
              rw [hp, Option.some.injEq] at hp'
              subst hp'
              rw [firstLoadOf] at hor
              rw [Option.or_none] at hor
              have : w.wltUniqueIDB58 ∈ st.walletMap.map Prod.fst :=
                (lookupWallet_isSome_iff st.walletMap w.wltUniqueIDB58).mp (by rw [hor]; rfl)
              exact absurd this hkeys
            | cons q pre' =>
              rw [List.cons_append, List.cons.injEq] at hdec
              obtain ⟨hq, hrest⟩ := hdec
              subst hq
              refine ih4 pre' p' post w' w1' hrest hp' hex' ?_
              rw [lookupWallet_append]
              cases hlk : lookupWallet st.walletMap w'.wltUniqueIDB58 with
              | some v =>
                rw [hlk, Option.or_some] at hor
                rw [Option.or_some]
                exact hor
              | none =>
                rw [hlk, Option.none_or] at hor
                rw [Option.none_or]
                by_cases hwid : w.wltUniqueIDB58 = w'.wltUniqueIDB58
                · rw [firstLoadOf] at hor
                  rw [hp] at hor
                  simp only at hor
                  rw [if_neg hexcl, if_pos hwid] at hor
                  rw [if_pos hwid, Option.or_some]
                  exact hor
                · rw [firstLoadOf] at hor
                  rw [hp] at hor
                  simp only at hor
                  rw [if_neg hexcl, if_neg hwid] at hor
                  rw [if_neg hwid, Option.none_or]
                  exact hor

/-- C7: for every load sequence that runs to completion, wallet
identifiers are pairwise distinct in the registry (at most one entry per
identifier); every lookup returns the wallet of the FIRST path that
parses to that identifier and is not excluded — so two wallets computing
the same identifier leave exactly one registry entry, the first-loaded
one, never silently overwritten — and every later path that parses to an
already-registered identifier is skipped with a warning naming both
paths (the loaded wallet's stored path and the skipped path). -/
theorem claim7_duplicate_first_wins (parse : String → Option Wallet) (excl : List String)
    (oI : List Nat) (oP : List String) (paths : List String) (st' : LoadState)
    (h : loadWallets parse excl oI oP initLoadState paths = .ok st') :
    (st'.walletMap.map Prod.fst).Nodup ∧
    (∀ wid, lookupWallet st'.walletMap wid = firstLoadOf parse excl wid paths) ∧
    (∀ pre p post w w1, paths = pre ++ p :: post → parse p = some w → p ∉ excl →
      firstLoadOf parse excl w.wltUniqueIDB58 pre = some w1 →
      (w1.walletPath, p) ∈ st'.dupWarnings) := by
  obtain ⟨hwf', hlook, _, hdup⟩ :=
    loadWallets_characterize parse excl oI oP paths initLoadState st'
      ⟨rfl, List.nodup_nil⟩ h
  refine ⟨hwf'.2, ?_, ?_⟩
  · intro wid
    rw [hlook wid]
    rfl
  · intro pre p post w w1 hdec hp hex hfirst
    exact hdup pre p post w w1 hdec hp hex hfirst

/-- C7 witness: the first-wins theorem applied to the concrete load of
two wallet files computing the same identifier 4. -/
theorem claim7_duplicate_first_wins_witness :
    (dupLoadedState.walletMap.map Prod.fst).Nodup ∧
    (∀ wid, lookupWallet dupLoadedState.walletMap wid =
      firstLoadOf parseDup [] wid ["dup1", "dup2"]) ∧
    (∀ pre p post w w1, ["dup1", "dup2"] = pre ++ p :: post → parseDup p = some w →
      p ∉ ([] : List String) →
      firstLoadOf parseDup [] w.wltUniqueIDB58 pre = some w1 →
      (w1.walletPath, p) ∈ dupLoadedState.dupWarnings) :=
  claim7_duplicate_first_wins parseDup [] [] [] ["dup1", "dup2"] dupLoadedState rfl

/-! ### C6 — the combined-ledger order -/

/-- C6 counterexample: two wallets with identifiers 5 and 3, subset given
in the order `[5, 3]`, each holding one copy of the same entry, so both
rows tie on the ordering key (and even on the hash).  The build's stable
sort keeps the input order and lists wallet 5's row before wallet 3's;
the claimed tie-break (wallet ID ascending) demands 3 before 5, so the
build output violates the claimed order at this input. -/
theorem claim6_counterexample :
    (createCombinedLedger 0 (fun _ => 0) false (mkState [(5, mkWallet 5 "path5" [entryTie] []), (3, mkWallet 3 "path3" [entryTie] [])]) [5, 3]).map (fun s => s.combinedLedger) = some [(5, entryTie), (3, entryTie)] ∧
    specOrderedB [(5, entryTie), (3, entryTie)] = false :=
  ⟨rfl, rfl⟩

/-- C6 amended: after every combined-ledger build, the combined ledger is
sorted by ordering key non-increasing (newest first), and ties keep the
order in which the build collected the rows (the subset's wallet order,
then each wallet's ledger order) — the stable sort never swaps two rows
whose keys tie — so the order is a deterministic function of the inputs.
Ties are NOT broken by wallet ID or transaction hash. -/
theorem claim6_sorted_stable (topTime : Nat) (zcTime : Nat → Nat) (b : Bool)
    (st : MainState) (ids : List Nat) (st' : MainState)
    (h : createCombinedLedger topTime zcTime b st ids = some st') :
    List.Sorted PairDescRel st'.combinedLedger ∧
    ∀ pairs x y, collectLedgerPairs st.walletMap ids = some pairs →
      PairDescRel x y → List.Sublist [x, y] pairs → List.Sublist [x, y] st'.combinedLedger := by
  obtain ⟨pairs, hpairs, hledger, _⟩ := createCombinedLedger_inv topTime zcTime b st ids st' h
  constructor
  · rw [hledger]
    exact List.sorted_insertionSort PairDescRel pairs
  · intro pairs' x y hp' hxy hsub
    rw [hpairs, Option.some.injEq] at hp'
    subst hp'
    rw [hledger]
    exact List.pair_sublist_insertionSort hxy hsub

/-- C6 witness: the order theorem applied to the concrete tied build. -/
theorem claim6_sorted_stable_witness :
    List.Sorted PairDescRel ({ mkState [(5, mkWallet 5 "path5" [entryTie] []), (3, mkWallet 3 "path3" [entryTie] [])] with combinedLedger := sortCombined [(5, entryTie), (3, entryTie)], ledgerSize := (sortCombined [(5, entryTie), (3, entryTie)]).length } : MainState).combinedLedger ∧
    ∀ pairs x y, collectLedgerPairs (mkState [(5, mkWallet 5 "path5" [entryTie] []), (3, mkWallet 3 "path3" [entryTie] [])]).walletMap [5, 3] = some pairs →
      PairDescRel x y → List.Sublist [x, y] pairs →
      List.Sublist [x, y] ({ mkState [(5, mkWallet 5 "path5" [entryTie] []), (3, mkWallet 3 "path3" [entryTie] [])] with combinedLedger := sortCombined [(5, entryTie), (3, entryTie)], ledgerSize := (sortCombined [(5, entryTie), (3, entryTie)]).length } : MainState).combinedLedger :=
  claim6_sorted_stable 0 (fun _ => 0) false
    (mkState [(5, mkWallet 5 "path5" [entryTie] []), (3, mkWallet 3 "path3" [entryTie] [])])
    [5, 3] _ rfl

/-! ### C8 — confirmation counts in the table -/

/-- C8: for every row of the converted ledger table, the confirmation
count equals `latestBlockNum − entryHeight + 1` when the entry's height
is below the unconfirmed sentinel (a confirmed entry), and 0 when the
height is the sentinel — the maximum representable height. -/
theorem claim8_confirmation_count (tip : Nat) (topTime : Nat) (zcTime : Nat → Nat)
    (offl : List Nat) (m : List (Nat × Wallet)) (l : List (Nat × LedgerEntry))
    (rows : List LedgerRow)
    (h : convertLedgerToTable tip topTime zcTime offl m l = some rows) :
    List.Forall₂ (fun (p : Nat × LedgerEntry) (r : LedgerRow) =>
      (p.2.blockNum = unconfSentinel → r.nConf = 0) ∧
      (p.2.blockNum < unconfSentinel →
        r.nConf = (tip : Int) - (p.2.blockNum : Int) + 1)) l rows := by
  refine (convertLedgerToTable_forall₂ tip topTime zcTime offl m l rows h).imp ?_
  intro p r hpr
  have hn := (mkRow_fields tip topTime zcTime offl m p r hpr).1
  constructor
  · intro hs
    rw [hn, if_pos (le_of_eq hs.symm)]
  · intro hlt
    rw [hn, if_neg (not_le_of_lt hlt)]

/-- C8 witness: the confirmation-count theorem applied to a concrete
table with one confirmed row (105 − 100 + 1 = 6) and one sentinel row. -/
theorem claim8_confirmation_count_witness :
    List.Forall₂ (fun (p : Nat × LedgerEntry) (r : LedgerRow) =>
      (p.2.blockNum = unconfSentinel → r.nConf = 0) ∧
      (p.2.blockNum < unconfSentinel →
        r.nConf = (105 : Int) - (p.2.blockNum : Int) + 1))
      [(1, entryAt100), (1, entryZC)]
      [{ nConf := 6, txtime := 9999, value := 500000000, wltName := "pathOne", comment := "", amountShown := 500000000, isMine := false, wltID := 1 },
       { nConf := 0, txtime := 0, value := 100000000, wltName := "pathOne", comment := "", amountShown := 100000000, isMine := false, wltID := 1 }] :=
  claim8_confirmation_count 105 9999 (fun _ => 0) []
    [(1, mkWallet 1 "pathOne" [entryAt100, entryZC] [])]
    [(1, entryAt100), (1, entryZC)] _ rfl

/-! ### C9 — row timestamps -/

/-- C9 counterexample: a confirmed entry in block 100 whose block carries
timestamp 1000, displayed while the chain tip 105 carries timestamp 2000.
The code reads `TheBDM.getTopBlockHeader().getTimestamp()` — the TOP
block's timestamp — so the row shows 2000 and not the containing block's
1000 that the claim requires. -/
theorem claim9_counterexample :
    (convertLedgerToTable 105 (blockTimeAt 105) (fun _ => 0) [] [(1, mkWallet 1 "pathOne" [entryAt100] [])] [(1, entryAt100)]).map (fun rows => rows.map (fun r => r.txtime)) = some [2000] ∧
    specRowTimestamp blockTimeAt (fun _ => 0) 105 (1, entryAt100) = 1000 ∧
    (2000 : Nat) ≠ 1000 :=
  ⟨rfl, rfl, by decide⟩

/-- C9 amended: for every row of the converted ledger table, the
displayed timestamp equals the timestamp of the CURRENT TOP block of the
chain when the row's confirmation count is positive, and the zero-conf
arrival wall-clock time of the transaction otherwise. -/
theorem claim9_timestamp (tip : Nat) (topTime : Nat) (zcTime : Nat → Nat)
    (offl : List Nat) (m : List (Nat × Wallet)) (l : List (Nat × LedgerEntry))
    (rows : List LedgerRow)
    (h : convertLedgerToTable tip topTime zcTime offl m l = some rows) :
    List.Forall₂ (fun (p : Nat × LedgerEntry) (r : LedgerRow) =>
      r.txtime = if r.nConf > 0 then topTime else zcTime p.2.txHash) l rows := by
  refine (convertLedgerToTable_forall₂ tip topTime zcTime offl m l rows h).imp ?_
  intro p r hpr
  exact (mkRow_fields tip topTime zcTime offl m p r hpr).2

/-- C9 witness: the timestamp theorem applied to a concrete table with
one confirmed row (top-block time 9999) and one zero-conf row (arrival
time 0). -/
theorem claim9_timestamp_witness :
    List.Forall₂ (fun (p : Nat × LedgerEntry) (r : LedgerRow) =>
      r.txtime = if r.nConf > 0 then 9999 else (fun _ => 0 : Nat → Nat) p.2.txHash)
      [(1, entryAt100), (1, entryZC)]
      [{ nConf := 6, txtime := 9999, value := 500000000, wltName := "pathOne", comment := "", amountShown := 500000000, isMine := false, wltID := 1 },
       { nConf := 0, txtime := 0, value := 100000000, wltName := "pathOne", comment := "", amountShown := 100000000, isMine := false, wltID := 1 }] :=
  claim9_timestamp 105 9999 (fun _ => 0) []
    [(1, mkWallet 1 "pathOne" [entryAt100, entryZC] [])]
    [(1, entryAt100), (1, entryZC)] _ rfl

end Armory
